import Mathlib

/-!
Verification of the bypass-diode component of Polytunnel-PV.

This file shallowly embeds `src/polytunnelpv/pv_module/bypass_diode.py`
(`BypassDiode`, `BypassedCellString`) and the module-level voltage-sweep
sizing of `src/polytunnelpv/__main__.py`, and proves the specified
properties of the bypass-string I-V combination algorithm.

Modelling conventions:
- Python floats are modelled as rationals (exact arithmetic over the same
  field operations the code performs).
- NumPy arrays are modelled as `List ℚ`; elementwise operations on arrays
  of unequal length raise in NumPy and are modelled as `none`
  (length-1 broadcasting is not exercised by the code under study).
- Python exceptions propagate as `Option.none`.
-/

namespace PolytunnelPV

/-- Elementwise addition of two NumPy-style arrays; `none` models the
broadcasting error NumPy raises on a length mismatch. -/
def npAdd (xs ys : List ℚ) : Option (List ℚ) :=
  if xs.length = ys.length then some (List.zipWith (· + ·) xs ys) else none

/-- Left fold of `npAdd` over the remaining arrays, as Python's `sum`
performs after absorbing its integer start value `0` into the first array. -/
def npSumAux (acc : List ℚ) : List (List ℚ) → Option (List ℚ)
  | [] => some acc
  | x :: xs => (npAdd acc x).bind fun acc2 => npSumAux acc2 xs

/-- Python's `sum` over a sequence of NumPy arrays (start value `0`).
On an empty sequence `sum` returns the scalar `0`, which makes the caller's
subsequent iteration over the "array" raise `TypeError`; that failure is
modelled here as `none`. -/
def npSum : List (List ℚ) → Option (List ℚ)
  | [] => none
  | x :: xs => npSumAux x xs

/-- Elementwise multiplication of two NumPy-style arrays; `none` models the
broadcasting error on a length mismatch. -/
def npMul (xs ys : List ℚ) : Option (List ℚ) :=
  if xs.length = ys.length then some (List.zipWith (· * ·) xs ys) else none

/-- Python's builtin `min` over a list: raises (here `none`) on an empty
list, otherwise folds the binary minimum over the elements. -/
def pyMin [LinearOrder α] : List α → Option α
  | [] => none
  | x :: xs => some (xs.foldl min x)

/-- CPython's `hash` on an `int`: reduction modulo the Mersenne prime
`2^61 - 1`, preserving sign, with `-1` mapped to `-2`. -/
def pyHashInt (n : ℤ) : ℤ :=
  let r := if 0 ≤ n then n % (2 ^ 61 - 1) else -((-n) % (2 ^ 61 - 1))
  if r = -1 then -2 else r

/-- `BypassDiode` from `bypass_diode.py`: a plain `@dataclass(kw_only=True)`
whose generated `__init__` assigns the three fields unconditionally (there
is no `__post_init__` and no validation of any kind). -/
structure BypassDiode where
  bypass_voltage : ℚ
  end_index : ℤ
  start_index : ℤ

/-- Modelled from the spec: `pv_cell.py` is not under `src/`, only its
caller `bypass_diode.py` is. Per the spec a `PVCell` carries an integer
`cell_id`, single-diode parameters including a `breakdown_voltage` and a
`short_circuit_current`, and its `calculate_iv_curve(ambient_celsius_temperature,
irradiance, *, current_series, voltage_series)` is a pure, deterministic
function of its explicit inputs returning `(current, power, voltage)`
arrays, which may fail (`ModelConvergenceError`, modelled as `none`).
It is embedded as an abstract function-valued field, which is all the
code under verification relies on. -/
structure PVCell where
  cell_id : ℤ
  breakdown_voltage : ℚ
  short_circuit_current : ℚ
  calculate_iv_curve : ℚ → List ℚ → Option (List ℚ) → Option (List ℚ) →
    Option (List ℚ × List ℚ × List ℚ)

/-- `BypassedCellString` from `bypass_diode.py`: a plain
`@dataclass(kw_only=True)`; like `BypassDiode`, its construction performs
no validation (in particular an empty `pv_cells` list is accepted). -/
structure BypassedCellString where
  bypass_diode : BypassDiode
  pv_cells : List PVCell

/-- `BypassedCellString.breakdown_voltage`: returns the bypass-diode
voltage. -/
def BypassedCellString.breakdown_voltage (s : BypassedCellString) : ℚ :=
  s.bypass_diode.bypass_voltage

/-- `BypassedCellString.cell_id`: `min([cell.cell_id for cell in
self.pv_cells])`; Python's `min` raises `ValueError` on an empty list,
modelled as `none`. -/
def BypassedCellString.cell_id (s : BypassedCellString) : Option ℤ :=
  pyMin (s.pv_cells.map PVCell.cell_id)

/-- `BypassedCellString.__hash__`: `hash(self.cell_id)` (propagating the
`ValueError` `cell_id` raises on an empty string). -/
def BypassedCellString.hashValue (s : BypassedCellString) : Option ℤ :=
  s.cell_id.map pyHashInt

/-- The per-cell loop of `calculate_iv_curve`, which fills
`cell_to_iv_series` by invoking every cell with the same arguments; a
raised exception propagates. Because each cell's curve is a deterministic
function of the cell and the shared arguments, the Python dict keyed by
cell followed by per-cell lookup is equivalent to this direct map. -/
def mapOption (f : α → Option β) : List α → Option (List β)
  | [] => some []
  | x :: xs => (f x).bind fun y => (mapOption f xs).map fun ys => y :: ys

/-- `BypassedCellString.calculate_iv_curve` from `bypass_diode.py`:
compute every member cell's curve with identical arguments, sum the
per-cell voltage arrays, clamp each entry at the bypass-diode voltage
(`max(entry, self.bypass_diode.bypass_voltage)`), and recompute the power
series as the first cell's current array times the clamped voltage array.
On an empty `pv_cells` the Python body raises (`sum` degenerates to the
scalar `0` and `self.pv_cells[0]` is out of range): modelled as `none`. -/
def BypassedCellString.calculate_iv_curve (s : BypassedCellString)
    (ambient_celsius_temperature : ℚ) (irradiance_array : List ℚ)
    (current_series voltage_series : Option (List ℚ)) :
    Option (List ℚ × List ℚ × List ℚ) :=
  (mapOption
      (fun c => c.calculate_iv_curve ambient_celsius_temperature irradiance_array
        current_series voltage_series)
      s.pv_cells).bind fun curves =>
    (npSum (curves.map fun t => t.2.2)).bind fun combined =>
      let combined_voltage_series :=
        combined.map fun entry => max entry s.bypass_diode.bypass_voltage
      curves.head?.bind fun t =>
        (npMul t.1 combined_voltage_series).map fun combined_power_series =>
          (t.1, combined_power_series, combined_voltage_series)

/-- State-passing form of `calculate_iv_curve`: the method body contains
no assignment to `self` and no mutation of `self.pv_cells` or
`self.bypass_diode` (the walrus `current_series := ...` rebinds only the
local parameter), so the post-state equals the pre-state. -/
def BypassedCellString.calculate_iv_curveS (s : BypassedCellString)
    (ambient_celsius_temperature : ℚ) (irradiance_array : List ℚ)
    (current_series voltage_series : Option (List ℚ)) :
    Option (List ℚ × List ℚ × List ℚ) × BypassedCellString :=
  (s.calculate_iv_curve ambient_celsius_temperature irradiance_array
    current_series voltage_series, s)

/-- `VOLTAGE_RESOLUTION` from `__main__.py`. -/
def VOLTAGE_RESOLUTION : ℕ := 1000

/-- `np.linspace(start, stop, num)` with the default `endpoint=True`:
`num` evenly spaced samples from `start` to `stop` inclusive. -/
def npLinspace (start stop : ℚ) (num : ℕ) : List ℚ :=
  if num = 1 then [start]
  else (List.range num).map fun i => start + (stop - start) * i / ((num : ℚ) - 1)

/-- An element of `pv_cells_and_cell_strings`: either a bare cell or a
bypassed string; attribute access `pv_cell.breakdown_voltage` in
`__main__.py` resolves on both. -/
def unitBreakdownVoltage : PVCell ⊕ BypassedCellString → ℚ
  | .inl c => c.breakdown_voltage
  | .inr s => s.breakdown_voltage

/-- The `voltage_series` sizing in `__main__.py` (`main`):
`np.linspace(np.min([u.breakdown_voltage for u in
scenario.pv_module.pv_cells_and_cell_strings]), 100, VOLTAGE_RESOLUTION)`.
`np.min` of an empty list raises, modelled as `none`. -/
def mainVoltageSeries (pv_cells_and_cell_strings : List (PVCell ⊕ BypassedCellString)) :
    Option (List ℚ) :=
  (pyMin (pv_cells_and_cell_strings.map unitBreakdownVoltage)).map
    fun lo => npLinspace lo 100 VOLTAGE_RESOLUTION

/- Concrete instances used by witnesses and counterexamples. -/

/-- A concrete bypass diode for witness computations. -/
def testDiode : BypassDiode :=
  { bypass_voltage := -4, end_index := 1, start_index := 0 }

/-- A concrete cell whose curve is a fixed three-sample table. -/
def testCellA : PVCell :=
  { cell_id := 0, breakdown_voltage := -15, short_circuit_current := 5,
    calculate_iv_curve := fun _ _ _ _ => some ([0, 1, 2], [0, 0, -6], [3, 0, -3]) }

/-- A second concrete cell whose curve is a fixed three-sample table. -/
def testCellB : PVCell :=
  { cell_id := 1, breakdown_voltage := -15, short_circuit_current := 5,
    calculate_iv_curve := fun _ _ _ _ => some ([0, 1, 2], [0, -1, -8], [2, -1, -4]) }

/-- A concrete two-cell bypassed string; its unclamped voltage sum is
`[5, -1, -7]`, so the diode at `-4` clamps the last sample. -/
def testString : BypassedCellString :=
  { bypass_diode := testDiode, pv_cells := [testCellA, testCellB] }

/-! Helper lemmas about the embedded array operations. -/

lemma npAdd_eq_some {xs ys out : List ℚ} (h : npAdd xs ys = some out) :
    ys.length = xs.length ∧ out.length = xs.length ∧
      ∀ i, i < out.length → out.getD i 0 = xs.getD i 0 + ys.getD i 0 := by
  unfold npAdd at h
  split at h
  case isTrue hlen =>
    injection h with h
    subst h
    refine ⟨hlen.symm, by simp [hlen], ?_⟩
    intro i hi
    simp only [List.length_zipWith, hlen, min_self] at hi
    rw [List.getD_eq_getElem _ _ (by simp [List.length_zipWith, hlen]; omega),
      List.getElem_zipWith,
      List.getD_eq_getElem _ _ (by omega), List.getD_eq_getElem _ _ (by omega)]
  case isFalse => exact absurd h (by simp)

lemma npMul_eq_some {xs ys out : List ℚ} (h : npMul xs ys = some out) :
    ys.length = xs.length ∧ out.length = xs.length ∧
      ∀ i, i < out.length → out.getD i 0 = xs.getD i 0 * ys.getD i 0 := by
  unfold npMul at h
  split at h
  case isTrue hlen =>
    injection h with h
    subst h
    refine ⟨hlen.symm, by simp [hlen], ?_⟩
    intro i hi
    simp only [List.length_zipWith, hlen, min_self] at hi
    rw [List.getD_eq_getElem _ _ (by simp [List.length_zipWith, hlen]; omega),
      List.getElem_zipWith,
      List.getD_eq_getElem _ _ (by omega), List.getD_eq_getElem _ _ (by omega)]
  case isFalse => exact absurd h (by simp)

lemma npSumAux_eq_some {acc out : List ℚ} {l : List (List ℚ)}
    (h : npSumAux acc l = some out) :
    (∀ x ∈ l, x.length = acc.length) ∧ out.length = acc.length ∧
      ∀ i, i < out.length →
        out.getD i 0 = acc.getD i 0 + (l.map fun x => x.getD i 0).sum := by
  induction l generalizing acc with
  | nil =>
    unfold npSumAux at h
    injection h with h
    subst h
    simp
  | cons x xs ih =>
    unfold npSumAux at h
    rw [Option.bind_eq_some] at h
    obtain ⟨acc2, hadd, hrest⟩ := h
    obtain ⟨hyx, hlen2, helem2⟩ := npAdd_eq_some hadd
    obtain ⟨hall, hlen, helem⟩ := ih hrest
    refine ⟨?_, by omega, ?_⟩
    · intro y hy
      rcases List.mem_cons.mp hy with rfl | hy
      · exact hyx
      · rw [hall y hy]; omega
    · intro i hi
      rw [helem i hi, helem2 i (by omega)]
      simp [add_assoc]

lemma npSum_eq_some {ls : List (List ℚ)} {out : List ℚ} (h : npSum ls = some out) :
    ls ≠ [] ∧ (∀ x ∈ ls, x.length = out.length) ∧
      ∀ i, i < out.length → out.getD i 0 = (ls.map fun x => x.getD i 0).sum := by
  match ls with
  | [] => exact absurd h (by simp [npSum])
  | x :: xs =>
    obtain ⟨hall, hlen, helem⟩ := npSumAux_eq_some (h : npSumAux x xs = some out)
    refine ⟨by simp, ?_, ?_⟩
    · intro y hy
      rcases List.mem_cons.mp hy with rfl | hy
      · omega
      · rw [hall y hy]; omega
    · intro i hi
      rw [helem i hi]
      simp

lemma npSumAux_isSome (acc : List ℚ) (l : List (List ℚ))
    (hl : ∀ x ∈ l, x.length = acc.length) :
    ∃ out, npSumAux acc l = some out ∧ out.length = acc.length := by
  induction l generalizing acc with
  | nil => exact ⟨acc, rfl, rfl⟩
  | cons x xs ih =>
    have hx : x.length = acc.length := hl x (by simp)
    have hadd : npAdd acc x = some (List.zipWith (· + ·) acc x) := by
      unfold npAdd
      rw [if_pos hx.symm]
    have hlen2 : (List.zipWith (· + ·) acc x).length = acc.length := by
      simp [List.length_zipWith, hx]
    obtain ⟨out, hout, hlen⟩ :=
      ih (List.zipWith (· + ·) acc x)
        (fun y hy => by rw [hl y (List.mem_cons_of_mem _ hy), hlen2])
    exact ⟨out, by unfold npSumAux; rw [hadd]; simpa using hout, by omega⟩

lemma npSum_isSome (ls : List (List ℚ)) (n : ℕ) (hne : ls ≠ [])
    (hl : ∀ x ∈ ls, x.length = n) :
    ∃ out, npSum ls = some out ∧ out.length = n := by
  match ls with
  | x :: xs =>
    have hx : x.length = n := hl x (by simp)
    obtain ⟨out, hout, hlen⟩ :=
      npSumAux_isSome x xs
        (fun y hy => by rw [hl y (List.mem_cons_of_mem _ hy), hx])
    exact ⟨out, hout, by omega⟩

lemma mapOption_eq_some_length {f : α → Option β} {l : List α} {out : List β}
    (h : mapOption f l = some out) : out.length = l.length := by
  induction l generalizing out with
  | nil =>
    unfold mapOption at h
    injection h with h
    subst h
    rfl
  | cons x xs ih =>
    unfold mapOption at h
    rw [Option.bind_eq_some] at h
    obtain ⟨y, _, h2⟩ := h
    rw [Option.map_eq_some'] at h2
    obtain ⟨ys, hys, rfl⟩ := h2
    simp [ih hys]

lemma mapOption_eq_some_get {f : α → Option β} {l : List α} {out : List β}
    (h : mapOption f l = some out) :
    ∀ i (hi : i < l.length) (hi2 : i < out.length),
      f (l.get ⟨i, hi⟩) = some (out.get ⟨i, hi2⟩) := by
  induction l generalizing out with
  | nil => intro i hi; exact absurd hi (by simp)
  | cons x xs ih =>
    unfold mapOption at h
    rw [Option.bind_eq_some] at h
    obtain ⟨y, hy, h2⟩ := h
    rw [Option.map_eq_some'] at h2
    obtain ⟨ys, hys, rfl⟩ := h2
    intro i hi hi2
    match i with
    | 0 => exact hy
    | n + 1 => exact ih hys n (by simpa using hi) (by simpa using hi2)

lemma mapOption_mem {f : α → Option β} {l : List α} {out : List β}
    (h : mapOption f l = some out) :
    ∀ y ∈ out, ∃ x ∈ l, f x = some y := by
  induction l generalizing out with
  | nil =>
    unfold mapOption at h
    injection h with h
    subst h
    simp
  | cons x xs ih =>
    unfold mapOption at h
    rw [Option.bind_eq_some] at h
    obtain ⟨y, hy, h2⟩ := h
    rw [Option.map_eq_some'] at h2
    obtain ⟨ys, hys, rfl⟩ := h2
    intro z hz
    rcases List.mem_cons.mp hz with rfl | hz
    · exact ⟨x, by simp, hy⟩
    · obtain ⟨x2, hx2, hfx2⟩ := ih hys z hz
      exact ⟨x2, List.mem_cons_of_mem _ hx2, hfx2⟩

lemma mapOption_isSome {f : α → Option β} {l : List α}
    (h : ∀ x ∈ l, ∃ y, f x = some y) : ∃ out, mapOption f l = some out := by
  induction l with
  | nil => exact ⟨[], rfl⟩
  | cons x xs ih =>
    obtain ⟨y, hy⟩ := h x (by simp)
    obtain ⟨ys, hys⟩ := ih (fun z hz => h z (List.mem_cons_of_mem _ hz))
    exact ⟨y :: ys, by unfold mapOption; rw [hy, hys]; rfl⟩

lemma foldl_min_le_init [LinearOrder α] (xs : List α) (x : α) :
    xs.foldl min x ≤ x := by
  induction xs generalizing x with
  | nil => exact le_refl x
  | cons y ys ih => exact le_trans (ih (min x y)) (min_le_left x y)

lemma foldl_min_le_mem [LinearOrder α] {xs : List α} {y : α} (x : α) (hy : y ∈ xs) :
    xs.foldl min x ≤ y := by
  induction xs generalizing x with
  | nil => cases hy
  | cons z zs ih =>
    rcases List.mem_cons.mp hy with rfl | hy
    · exact le_trans (foldl_min_le_init zs (min x y)) (min_le_right x y)
    · exact ih (min x z) hy

lemma foldl_min_mem [LinearOrder α] (xs : List α) (x : α) :
    xs.foldl min x ∈ x :: xs := by
  induction xs generalizing x with
  | nil => simp [List.foldl]
  | cons y ys ih =>
    have h := ih (min x y)
    rcases List.mem_cons.mp h with heq | hmem
    · show ys.foldl min (min x y) ∈ x :: y :: ys
      rcases min_choice x y with hxy | hxy
      · rw [heq, hxy]; simp
      · rw [heq, hxy]; simp
    · exact List.mem_cons_of_mem _ (List.mem_cons_of_mem _ hmem)

lemma pyMin_nonempty [LinearOrder α] {l : List α} (h : l ≠ []) :
    ∃ m, pyMin l = some m ∧ (∀ y ∈ l, m ≤ y) ∧ m ∈ l := by
  match l with
  | x :: xs =>
    refine ⟨xs.foldl min x, rfl, ?_, foldl_min_mem xs x⟩
    intro y hy
    rcases List.mem_cons.mp hy with rfl | hy
    · exact foldl_min_le_init xs y
    · exact foldl_min_le_mem x hy

lemma npLinspace_head (a b : ℚ) (n : ℕ) (h : n ≠ 0) :
    (npLinspace a b n).head? = some a := by
  unfold npLinspace
  by_cases h1 : n = 1
  · rw [if_pos h1]; rfl
  · rw [if_neg h1]
    obtain ⟨m, rfl⟩ : ∃ m, n = m + 1 := ⟨n - 1, by omega⟩
    rw [List.range_succ_eq_map]
    simp

lemma calculate_iv_curve_eq_some {s : BypassedCellString} {T : ℚ} {irr : List ℚ}
    {cs vs : Option (List ℚ)} {cur pow vol : List ℚ}
    (hc : s.calculate_iv_curve T irr cs vs = some (cur, pow, vol)) :
    ∃ curves combined t,
      mapOption (fun c => c.calculate_iv_curve T irr cs vs) s.pv_cells = some curves ∧
      npSum (curves.map fun t => t.2.2) = some combined ∧
      curves.head? = some t ∧
      npMul t.1 (combined.map fun entry => max entry s.bypass_diode.bypass_voltage)
        = some pow ∧
      cur = t.1 ∧
      vol = combined.map fun entry => max entry s.bypass_diode.bypass_voltage := by
  unfold BypassedCellString.calculate_iv_curve at hc
  rw [Option.bind_eq_some] at hc
  obtain ⟨curves, hcurves, hc⟩ := hc
  rw [Option.bind_eq_some] at hc
  obtain ⟨combined, hcombined, hc⟩ := hc
  simp only [Option.bind_eq_some] at hc
  obtain ⟨t, ht, hc⟩ := hc
  rw [Option.map_eq_some'] at hc
  obtain ⟨pw, hpw, heq⟩ := hc
  injection heq with h1 h23
  injection h23 with h2 h3
  subst h1 h2 h3
  exact ⟨curves, combined, t, hcurves, hcombined, ht, hpw, rfl, rfl⟩

/-- C1: For every BypassedCellString with non-empty pv_cells and every
current sample index i, the voltage array returned by calculate_iv_curve
satisfies string_voltage[i] = max(unclamped_voltage[i], bypass_voltage),
where unclamped_voltage is the elementwise sum of the member cells'
voltage arrays; in particular string_voltage[i] ≥ bypass_voltage. -/
theorem string_voltage_clamped_at_bypass_voltage
    (s : BypassedCellString) (T : ℚ) (irr : List ℚ) (cs vs : Option (List ℚ))
    (cur pow vol : List ℚ) (hne : s.pv_cells ≠ [])
    (hc : s.calculate_iv_curve T irr cs vs = some (cur, pow, vol)) :
    ∃ unclamped : List ℚ,
      (∃ curves,
        mapOption (fun c => c.calculate_iv_curve T irr cs vs) s.pv_cells
          = some curves ∧
        npSum (curves.map fun t => t.2.2) = some unclamped) ∧
      vol.length = unclamped.length ∧
      (∀ i, i < vol.length →
        vol.getD i 0 = max (unclamped.getD i 0) s.bypass_diode.bypass_voltage) ∧
      (∀ i, i < vol.length → s.bypass_diode.bypass_voltage ≤ vol.getD i 0) := by
  obtain ⟨curves, combined, t, hcurves, hcombined, ht, hpw, hcur, hvol⟩ :=
    calculate_iv_curve_eq_some hc
  subst hvol
  refine ⟨combined, ⟨curves, hcurves, hcombined⟩, by simp, ?_, ?_⟩
  · intro i hi
    rw [List.length_map] at hi
    rw [List.getD_eq_getElem _ _ (by simpa using hi), List.getElem_map,
      List.getD_eq_getElem _ _ hi]
  · intro i hi
    rw [List.length_map] at hi
    rw [List.getD_eq_getElem _ _ (by simpa using hi), List.getElem_map]
    exact le_max_right _ _

/-- Witness for C1 on a concrete two-cell string whose unclamped voltage
sum [5, -1, -7] is clamped by the diode at -4 to [5, -1, -4]. -/
theorem string_voltage_clamped_at_bypass_voltage_witness :
    ∃ unclamped : List ℚ,
      (∃ curves,
        mapOption (fun c => c.calculate_iv_curve 25 [1000] none none)
            testString.pv_cells = some curves ∧
        npSum (curves.map fun t => t.2.2) = some unclamped) ∧
      ([5, -1, -4] : List ℚ).length = unclamped.length ∧
      (∀ i, i < ([5, -1, -4] : List ℚ).length →
        ([5, -1, -4] : List ℚ).getD i 0 =
          max (unclamped.getD i 0) testString.bypass_diode.bypass_voltage) ∧
      (∀ i, i < ([5, -1, -4] : List ℚ).length →
        testString.bypass_diode.bypass_voltage ≤ ([5, -1, -4] : List ℚ).getD i 0) :=
  string_voltage_clamped_at_bypass_voltage testString 25 [1000] none none
    [0, 1, 2] [0, -1, -8] [5, -1, -4]
    (by simp [testString])
    (by norm_num [BypassedCellString.calculate_iv_curve, mapOption, testString,
      testCellA, testCellB, testDiode, npSum, npSumAux, npAdd, npMul, max_def])

/-- C2: For every BypassedCellString with non-empty pv_cells and every
current sample index i, the power array returned by calculate_iv_curve
satisfies power[i] = current[i] * string_voltage[i], where string_voltage
is the clamped voltage array (the power is recomputed after clamping). -/
theorem power_recomputed_from_clamped_voltage
    (s : BypassedCellString) (T : ℚ) (irr : List ℚ) (cs vs : Option (List ℚ))
    (cur pow vol : List ℚ) (hne : s.pv_cells ≠ [])
    (hc : s.calculate_iv_curve T irr cs vs = some (cur, pow, vol)) :
    pow.length = cur.length ∧ pow.length = vol.length ∧
      ∀ i, i < pow.length → pow.getD i 0 = cur.getD i 0 * vol.getD i 0 := by
  obtain ⟨curves, combined, t, hcurves, hcombined, ht, hpw, hcur, hvol⟩ :=
    calculate_iv_curve_eq_some hc
  subst hcur
  subst hvol
  obtain ⟨hlen1, hlen2, helem⟩ := npMul_eq_some hpw
  exact ⟨by omega, by omega, helem⟩

/-- Witness for C2 on the concrete clamped string: power [0, -1, -8] is
the elementwise product of current [0, 1, 2] and clamped voltage
[5, -1, -4] (not of the unclamped sum [5, -1, -7]). -/
theorem power_recomputed_from_clamped_voltage_witness :
    ([0, -1, -8] : List ℚ).length = ([0, 1, 2] : List ℚ).length ∧
      ([0, -1, -8] : List ℚ).length = ([5, -1, -4] : List ℚ).length ∧
      ∀ i, i < ([0, -1, -8] : List ℚ).length →
        ([0, -1, -8] : List ℚ).getD i 0 =
          ([0, 1, 2] : List ℚ).getD i 0 * ([5, -1, -4] : List ℚ).getD i 0 :=
  power_recomputed_from_clamped_voltage testString 25 [1000] none none
    [0, 1, 2] [0, -1, -8] [5, -1, -4]
    (by simp [testString])
    (by norm_num [BypassedCellString.calculate_iv_curve, mapOption, testString,
      testCellA, testCellB, testDiode, npSum, npSumAux, npAdd, npMul, max_def])

/-- C3: calculate_iv_curve computes every member cell's curve by invoking
it with the identical ambient temperature, irradiance array and
current/voltage series, and the unclamped string voltage at each sample
is the elementwise sum of the per-cell voltage arrays over that shared
grid (the returned voltage being its clamp). -/
theorem per_cell_curves_summed_elementwise
    (s : BypassedCellString) (T : ℚ) (irr : List ℚ) (cs vs : Option (List ℚ))
    (cur pow vol : List ℚ) (hne : s.pv_cells ≠ [])
    (hc : s.calculate_iv_curve T irr cs vs = some (cur, pow, vol)) :
    ∃ curves,
      mapOption (fun c => c.calculate_iv_curve T irr cs vs) s.pv_cells
        = some curves ∧
      curves.length = s.pv_cells.length ∧
      (∀ i (hi : i < s.pv_cells.length) (hi2 : i < curves.length),
        (s.pv_cells.get ⟨i, hi⟩).calculate_iv_curve T irr cs vs
          = some (curves.get ⟨i, hi2⟩)) ∧
      ∃ unclamped,
        npSum (curves.map fun t => t.2.2) = some unclamped ∧
        (∀ t ∈ curves, t.2.2.length = unclamped.length) ∧
        (∀ i, i < unclamped.length →
          unclamped.getD i 0 = (curves.map fun t => t.2.2.getD i 0).sum) ∧
        vol = unclamped.map fun entry => max entry s.bypass_diode.bypass_voltage := by
  obtain ⟨curves, combined, t, hcurves, hcombined, ht, hpw, hcur, hvol⟩ :=
    calculate_iv_curve_eq_some hc
  refine ⟨curves, hcurves, mapOption_eq_some_length hcurves,
    mapOption_eq_some_get hcurves, combined, hcombined, ?_, ?_, hvol⟩
  · intro t2 ht2
    exact (npSum_eq_some hcombined).2.1 t2.2.2 (List.mem_map_of_mem _ ht2)
  · intro i hi
    rw [(npSum_eq_some hcombined).2.2 i hi, List.map_map]
    rfl

/-- Witness for C3 on the concrete two-cell string. -/
theorem per_cell_curves_summed_elementwise_witness :
    ∃ curves,
      mapOption (fun c => c.calculate_iv_curve 25 [1000] none none)
          testString.pv_cells = some curves ∧
      curves.length = testString.pv_cells.length ∧
      (∀ i (hi : i < testString.pv_cells.length) (hi2 : i < curves.length),
        (testString.pv_cells.get ⟨i, hi⟩).calculate_iv_curve 25 [1000] none none
          = some (curves.get ⟨i, hi2⟩)) ∧
      ∃ unclamped,
        npSum (curves.map fun t => t.2.2) = some unclamped ∧
        (∀ t ∈ curves, t.2.2.length = unclamped.length) ∧
        (∀ i, i < unclamped.length →
          unclamped.getD i 0 = (curves.map fun t => t.2.2.getD i 0).sum) ∧
        ([5, -1, -4] : List ℚ)
          = unclamped.map fun entry => max entry testString.bypass_diode.bypass_voltage :=
  per_cell_curves_summed_elementwise testString 25 [1000] none none
    [0, 1, 2] [0, -1, -8] [5, -1, -4]
    (by simp [testString])
    (by norm_num [BypassedCellString.calculate_iv_curve, mapOption, testString,
      testCellA, testCellB, testDiode, npSum, npSumAux, npAdd, npMul, max_def])

/-- C4: For every BypassedCellString with non-empty pv_cells, the derived
breakdown_voltage equals the diode's bypass_voltage and the derived
cell_id is the minimum cell_id among the member cells. -/
theorem derived_breakdown_voltage_and_cell_id
    (s : BypassedCellString) (hne : s.pv_cells ≠ []) :
    s.breakdown_voltage = s.bypass_diode.bypass_voltage ∧
      ∃ m, s.cell_id = some m ∧ (∀ c ∈ s.pv_cells, m ≤ c.cell_id) ∧
        ∃ c ∈ s.pv_cells, c.cell_id = m := by
  refine ⟨rfl, ?_⟩
  obtain ⟨m, hm, hle, hmem⟩ :=
    pyMin_nonempty (l := s.pv_cells.map PVCell.cell_id) (by simpa using hne)
  refine ⟨m, hm, fun c hc => hle _ (List.mem_map_of_mem _ hc), ?_⟩
  obtain ⟨c, hc, hcm⟩ := List.mem_map.mp hmem
  exact ⟨c, hc, hcm⟩

/-- Witness for C4 on the concrete two-cell string with cell ids 0 and 1. -/
theorem derived_breakdown_voltage_and_cell_id_witness :
    testString.breakdown_voltage = testString.bypass_diode.bypass_voltage ∧
      ∃ m, testString.cell_id = some m ∧
        (∀ c ∈ testString.pv_cells, m ≤ c.cell_id) ∧
        ∃ c ∈ testString.pv_cells, c.cell_id = m :=
  derived_breakdown_voltage_and_cell_id testString (by simp [testString])

/-- A bypassed string constructed with an empty pv_cells list; the Python
dataclass accepts it (no validation runs at construction time). -/
def emptyCellString : BypassedCellString :=
  { bypass_diode := testDiode, pv_cells := [] }

/-- Counterexample to C5: constructing a BypassedCellString with an empty
pv_cells list succeeds (the dataclass performs no validation), and the
emptiness then surfaces at runtime: cell_id fails (Python min of an empty
list), hashing fails with it, and calculate_iv_curve fails. -/
theorem empty_pv_cells_accepted_then_fails_at_runtime :
    emptyCellString.pv_cells = [] ∧
      emptyCellString.cell_id = none ∧
      emptyCellString.hashValue = none ∧
      emptyCellString.calculate_iv_curve 25 [1000] none none = none :=
  ⟨rfl, rfl, rfl, rfl⟩

/-- C5 as amended: construction does not reject an empty pv_cells list;
emptiness makes cell_id and calculate_iv_curve fail at runtime instead.
For every BypassedCellString whose pv_cells list is non-empty, cell_id
succeeds, and calculate_iv_curve succeeds whenever every member cell's
curve computation succeeds with index-aligned arrays — emptiness never
makes them fail. -/
theorem nonempty_string_operations_succeed
    (s : BypassedCellString) (T : ℚ) (irr : List ℚ) (cs vs : Option (List ℚ))
    (n : ℕ) (hne : s.pv_cells ≠ [])
    (hcells : ∀ c ∈ s.pv_cells, ∃ t, c.calculate_iv_curve T irr cs vs = some t ∧
      t.1.length = n ∧ t.2.2.length = n) :
    (∃ m, s.cell_id = some m) ∧
      ∃ r, s.calculate_iv_curve T irr cs vs = some r := by
  constructor
  · obtain ⟨m, hm, -, -⟩ :=
      pyMin_nonempty (l := s.pv_cells.map PVCell.cell_id) (by simpa using hne)
    exact ⟨m, hm⟩
  · obtain ⟨curves, hcurves⟩ :=
      mapOption_isSome (f := fun c => c.calculate_iv_curve T irr cs vs)
        (fun c hc => (hcells c hc).imp fun t ht => ht.1)
    have hlens : ∀ t ∈ curves, t.2.2.length = n ∧ t.1.length = n := by
      intro t ht
      obtain ⟨c, hc, hfc⟩ := mapOption_mem hcurves t ht
      obtain ⟨t2, ht2, hlen1, hlen2⟩ := hcells c hc
      rw [hfc] at ht2
      injection ht2 with ht2
      subst ht2
      exact ⟨hlen2, hlen1⟩
    have hcne : curves ≠ [] := by
      intro h
      apply hne
      have hl := mapOption_eq_some_length hcurves
      rw [h] at hl
      have : s.pv_cells.length = 0 := by simpa using hl.symm
      exact List.length_eq_zero.mp this
    obtain ⟨t0, rest, rfl⟩ : ∃ t0 rest, curves = t0 :: rest := by
      match curves, hcne with
      | t :: ts, _ => exact ⟨t, ts, rfl⟩
    obtain ⟨combined, hcombined, hclen⟩ :=
      npSum_isSome ((t0 :: rest).map fun t => t.2.2) n
        (by simp)
        (by
          intro x hx
          obtain ⟨t, ht, rfl⟩ := List.mem_map.mp hx
          exact (hlens t ht).1)
    have hmul :
        npMul t0.1
            (combined.map fun entry => max entry s.bypass_diode.bypass_voltage)
          = some (List.zipWith (· * ·) t0.1
              (combined.map fun entry => max entry s.bypass_diode.bypass_voltage)) := by
      unfold npMul
      rw [if_pos]
      simp [hclen, (hlens t0 (by simp)).2]
    refine ⟨(t0.1,
      List.zipWith (· * ·) t0.1
        (combined.map fun entry => max entry s.bypass_diode.bypass_voltage),
      combined.map fun entry => max entry s.bypass_diode.bypass_voltage), ?_⟩
    unfold BypassedCellString.calculate_iv_curve
    rw [hcurves, Option.some_bind, hcombined, Option.some_bind]
    show ((t0 :: rest).head?).bind _ = _
    rw [List.head?_cons, Option.some_bind, hmul]
    rfl

/-- Witness for the amended C5 on the concrete two-cell string. -/
theorem nonempty_string_operations_succeed_witness :
    (∃ m, testString.cell_id = some m) ∧
      ∃ r, testString.calculate_iv_curve 25 [1000] none none = some r :=
  nonempty_string_operations_succeed testString 25 [1000] none none 3
    (by simp [testString])
    (by
      intro c hc
      simp only [testString, List.mem_cons, List.not_mem_nil, or_false] at hc
      rcases hc with rfl | rfl
      · exact ⟨_, rfl, rfl, rfl⟩
      · exact ⟨_, rfl, rfl, rfl⟩)

/-- C6: calculate_iv_curve is deterministic: a second call with identical
inputs, made on the state left behind by the first call, returns the
identical current/power/voltage result (there is no hidden mutable
state). -/
theorem calculate_iv_curve_deterministic
    (s : BypassedCellString) (T : ℚ) (irr : List ℚ) (cs vs : Option (List ℚ)) :
    (BypassedCellString.calculate_iv_curveS
        ((BypassedCellString.calculate_iv_curveS s T irr cs vs).2) T irr cs vs).1
      = (BypassedCellString.calculate_iv_curveS s T irr cs vs).1 := rfl

/-- A bypass diode whose start index exceeds its end index; the Python
dataclass accepts it (no validation runs at construction time). -/
def reversedDiode : BypassDiode :=
  { bypass_voltage := -1, end_index := 0, start_index := 1 }

/-- Counterexample to C7: a BypassDiode with start_index = 1 and
end_index = 0 is constructed successfully, violating the claimed
invariant start_index ≤ end_index. -/
theorem bypass_diode_index_invariant_not_enforced :
    reversedDiode.start_index = 1 ∧ reversedDiode.end_index = 0 ∧
      ¬ reversedDiode.start_index ≤ reversedDiode.end_index := by
  refine ⟨rfl, rfl, ?_⟩
  decide

/-- C7 as amended: BypassDiode construction performs no validation at
all — it accepts every combination of field values, including
start_index > end_index; the invariant is a convention expected of
callers, not enforced by the class. -/
theorem bypass_diode_construction_unvalidated (bv : ℚ) (e st : ℤ) :
    (BypassDiode.mk bv e st).bypass_voltage = bv ∧
      (BypassDiode.mk bv e st).end_index = e ∧
      (BypassDiode.mk bv e st).start_index = st :=
  ⟨rfl, rfl, rfl⟩

/-- C8: the module-level voltage sweep in main starts exactly at the most
negative (minimum) breakdown_voltage across all protected units of
pv_cells_and_cell_strings, strings treated interchangeably with cells. -/
theorem voltage_sweep_lower_bound
    (units : List (PVCell ⊕ BypassedCellString)) (hne : units ≠ []) :
    ∃ lo sweep,
      pyMin (units.map unitBreakdownVoltage) = some lo ∧
      mainVoltageSeries units = some sweep ∧
      sweep.head? = some lo ∧
      (∀ u ∈ units, lo ≤ unitBreakdownVoltage u) ∧
      ∃ u ∈ units, unitBreakdownVoltage u = lo := by
  obtain ⟨lo, hlo, hle, hmem⟩ :=
    pyMin_nonempty (l := units.map unitBreakdownVoltage) (by simpa using hne)
  refine ⟨lo, npLinspace lo 100 VOLTAGE_RESOLUTION, hlo, ?_, ?_, ?_, ?_⟩
  · unfold mainVoltageSeries
    rw [hlo]
    rfl
  · exact npLinspace_head lo 100 VOLTAGE_RESOLUTION (by norm_num [VOLTAGE_RESOLUTION])
  · intro u hu
    exact hle _ (List.mem_map_of_mem _ hu)
  · obtain ⟨u, hu, hul⟩ := List.mem_map.mp hmem
    exact ⟨u, hu, hul⟩

/-- Witness for C8 on a concrete unit list holding one bare cell
(breakdown -15) and one bypassed string (breakdown -4). -/
theorem voltage_sweep_lower_bound_witness :
    ∃ lo sweep,
      pyMin (([.inl testCellA, .inr testString] :
          List (PVCell ⊕ BypassedCellString)).map unitBreakdownVoltage) = some lo ∧
      mainVoltageSeries [.inl testCellA, .inr testString] = some sweep ∧
      sweep.head? = some lo ∧
      (∀ u ∈ ([.inl testCellA, .inr testString] :
          List (PVCell ⊕ BypassedCellString)), lo ≤ unitBreakdownVoltage u) ∧
      ∃ u ∈ ([.inl testCellA, .inr testString] :
          List (PVCell ⊕ BypassedCellString)), unitBreakdownVoltage u = lo :=
  voltage_sweep_lower_bound [.inl testCellA, .inr testString] (by simp)

/-- C9: calculate_iv_curve leaves the string itself unchanged: after a
call, the bypass diode's voltage and index range, and the pv_cells list
(its length, order and membership) are what they were before. -/
theorem calculate_iv_curve_leaves_string_unchanged
    (s : BypassedCellString) (T : ℚ) (irr : List ℚ) (cs vs : Option (List ℚ)) :
    ((s.calculate_iv_curveS T irr cs vs).2.bypass_diode.bypass_voltage
        = s.bypass_diode.bypass_voltage ∧
      (s.calculate_iv_curveS T irr cs vs).2.bypass_diode.start_index
        = s.bypass_diode.start_index ∧
      (s.calculate_iv_curveS T irr cs vs).2.bypass_diode.end_index
        = s.bypass_diode.end_index) ∧
      (s.calculate_iv_curveS T irr cs vs).2.pv_cells = s.pv_cells ∧
      (s.calculate_iv_curveS T irr cs vs).2.pv_cells.length = s.pv_cells.length ∧
      ∀ c, c ∈ (s.calculate_iv_curveS T irr cs vs).2.pv_cells ↔ c ∈ s.pv_cells :=
  ⟨⟨rfl, rfl, rfl⟩, rfl, rfl, fun _ => Iff.rfl⟩

/-- A second concrete string sharing minimum cell id 0 with testString
but with a different diode and different membership. -/
def testStringAltDiode : BypassedCellString :=
  { bypass_diode := { bypass_voltage := -7, end_index := 0, start_index := 0 },
    pv_cells := [testCellA] }

/-- C10: the hash of a non-empty BypassedCellString is the Python hash of
the minimum member cell_id; consequently two strings whose cell lists
share the same minimum cell_id hash equal, regardless of their bypass
diodes or other member cells. -/
theorem string_hash_is_hash_of_min_cell_id
    (s1 s2 : BypassedCellString) (hne1 : s1.pv_cells ≠ []) (hne2 : s2.pv_cells ≠ []) :
    (∃ m, s1.cell_id = some m ∧ s1.hashValue = some (pyHashInt m) ∧
      (∀ c ∈ s1.pv_cells, m ≤ c.cell_id) ∧ ∃ c ∈ s1.pv_cells, c.cell_id = m) ∧
    (s1.cell_id = s2.cell_id → s1.hashValue = s2.hashValue) := by
  constructor
  · obtain ⟨m, hm, hle, hmem⟩ :=
      pyMin_nonempty (l := s1.pv_cells.map PVCell.cell_id) (by simpa using hne1)
    refine ⟨m, hm, ?_, fun c hc => hle _ (List.mem_map_of_mem _ hc), ?_⟩
    · show s1.cell_id.map pyHashInt = some (pyHashInt m)
      rw [show s1.cell_id = some m from hm]
      rfl
    · obtain ⟨c, hc, hcm⟩ := List.mem_map.mp hmem
      exact ⟨c, hc, hcm⟩
  · intro h
    show s1.cell_id.map pyHashInt = s2.cell_id.map pyHashInt
    rw [h]

/-- Witness for C10: testString (cells 0 and 1, diode -4) and
testStringAltDiode (cell 0 only, diode -7) share minimum cell id 0. -/
theorem string_hash_is_hash_of_min_cell_id_witness :
    (∃ m, testString.cell_id = some m ∧
      testString.hashValue = some (pyHashInt m) ∧
      (∀ c ∈ testString.pv_cells, m ≤ c.cell_id) ∧
      ∃ c ∈ testString.pv_cells, c.cell_id = m) ∧
    (testString.cell_id = testStringAltDiode.cell_id →
      testString.hashValue = testStringAltDiode.hashValue) :=
  string_hash_is_hash_of_min_cell_id testString testStringAltDiode
    (by simp [testString]) (by simp [testStringAltDiode])

end PolytunnelPV
